import Mathlib

set_option linter.unusedVariables false

/-!
A shallow embedding of `dedupe.c` (an offline hard-link deduplicator) and
proofs about it.  The out-of-scope collaborators named by the design notes
(the digest primitive, the chained hash table, terminal rendering, `fnmatch`,
the allocation arena) are modelled by their interfaces: the digest primitive
is an arbitrary function `sha : List Nat → List Nat`, the hash maps are
insertion-ordered association lists, terminal/locale rendering is a fixed
deterministic plain-text rendering, and `fnmatch` is an arbitrary predicate.
Machine integers that matter are reduced explicitly (`% 2^32` for the random
temp-name nonce); `off_t`/sizes are `Nat`, `time_t`/nanoseconds are `Int`.
-/

/-- Stat metadata and byte content of a regular file, as obtained by
`fstatat` (and later read through `mmap`) in `scan_directory`/`hash_inode`. -/
structure FileMeta where
  size : Nat
  mtimeSec : Int
  mtimeNsec : Int
  content : List Nat
deriving DecidableEq

/-- One node of the scanned directory tree.  `statOk` models whether the
`fstatat`/`fstat` call for this entry succeeds; for directories `openOk`
models whether `openat`/`fdopendir` succeeds and `dev` is the `st_dev` seen
by `fstat`.  `other` covers the entry types `scan_directory` ignores. -/
inductive FsNode where
  | file (name : String) (ino : Nat) (statOk : Bool) (meta : FileMeta)
  | dir (name : String) (openOk : Bool) (statOk : Bool) (dev : Nat) (entries : List FsNode)
  | other (name : String)

/-- The in-memory `struct inode_entry`: stat fields plus the observed paths
(the path list is built by prepending, as in `scan_directory`). -/
structure InodeEntry where
  ino : Nat
  size : Nat
  mtimeSec : Int
  mtimeNsec : Int
  content : List Nat
  paths : List String
deriving DecidableEq

/-- The option flags of `struct dedupe_state` together with the confinement
device and the compiled exclude matcher (`fnmatch` is out of scope and
abstracted by a predicate on basenames). -/
structure Config where
  boring : Bool
  verbose : Bool
  dryrun : Bool
  interactive : Bool
  xattrs : Bool
  device : Nat
  excl : String → Bool

/-- The trailing-`/` stripping loop of `parse_cmdline`
(`while (length && dir[--length] == '/') dir[length] = 0;`). -/
def stripTrailing : List Char → List Char
  | [] => []
  | c :: cs =>
    match stripTrailing cs with
    | [] => if c = '/' then [] else [c]
    | rest => c :: rest

/-- A root argument as stored into `state->dirs`: the copy with all trailing
slashes overwritten by NUL. -/
def stripRoot (s : String) : String :=
  String.mk (stripTrailing s.toList)

/-- Outcome of one `getopt_long` step, as consumed by the `switch` in
`parse_cmdline`.  `helpErr` covers `-h`, `-?` and unknown options, all of
which print usage and make `parse_cmdline` return 1. -/
inductive CliOpt where
  | b | v | n | i | x
  | e (pat : String)
  | helpErr
deriving DecidableEq

/-- Accumulated option state while the `getopt_long` loop runs. -/
structure Flags where
  boring : Bool := false
  verbose : Bool := false
  dryrun : Bool := false
  interactive : Bool := false
  xattrs : Bool := false
  excludes : List String := []

/-- The `getopt_long` loop of `parse_cmdline`: fold the recognised options
into the state, stopping with failure at `-h`/`-?`/unknown. -/
def parseOpts (acc : Flags) : List CliOpt → Option Flags
  | [] => some acc
  | .helpErr :: _ => none
  | .b :: rest => parseOpts { acc with boring := true } rest
  | .v :: rest => parseOpts { acc with verbose := true } rest
  | .n :: rest => parseOpts { acc with dryrun := true } rest
  | .i :: rest => parseOpts { acc with interactive := true } rest
  | .x :: rest => parseOpts { acc with xattrs := true } rest
  | .e p :: rest => parseOpts { acc with excludes := acc.excludes ++ [p] } rest

/-- `parse_cmdline`: parse options, store the slash-stripped roots, and when
at least one root is present `stat` the first stored root to obtain the
confinement device.  `stat` is modelled by a partial map from the exact
string passed to it to the device id.  `none` models `return 1`. -/
def parseCmdline (stat : String → Option Nat) (match0 : String → String → Bool)
    (opts : List CliOpt) (roots : List String) : Option (Config × List String) :=
  match parseOpts {} opts with
  | none => none
  | some fl =>
    let dirs := roots.map stripRoot
    let mkCfg := fun dev => Config.mk fl.boring fl.verbose fl.dryrun fl.interactive fl.xattrs dev
      (fun name => fl.excludes.any (fun pat => match0 pat name))
    match dirs with
    | [] => some (mkCfg 0, [])
    | d0 :: _ =>
      match stat d0 with
      | none => none
      | some dev => some (mkCfg dev, dirs)

/-- `is_excluded`: drop `.` and `..`, then try the exclude patterns. -/
def isExcluded (excl : String → Bool) (name : String) : Bool :=
  name = "." || name = ".." || excl name

/-- The inode map (`state->inode_lookup`), abstracted as an
insertion-ordered association list keyed by inode number.  A bucket's value
is an `Option InodeEntry` because `scan_directory` calls `hash_map_insert`
*before* `fstatat`: when the stat of a freshly inserted inode fails, the
bucket stays in the map with `value == NULL` (`none` here). -/
abbrev InodeMap := List (Nat × Option InodeEntry)

/-- Lookup by inode number (`hash_map_insert` finding an existing bucket):
`none` = no bucket, `some v` = a bucket whose `value` is `v`. -/
def lookupBucket (m : InodeMap) (ino : Nat) : Option (Option InodeEntry) :=
  match List.find? (fun kv => kv.1 = ino) m with
  | some kv => some kv.2
  | none => none

/-- Set the value of an existing bucket (`bucket->value = ientry`). -/
def setBucket (m : InodeMap) (ino : Nat) (v : Option InodeEntry) : InodeMap :=
  m.map (fun kv => if kv.1 = ino then (kv.1, v) else kv)

/-- Update the entry of an inode number in place. -/
def updateIno (m : InodeMap) (ino : Nat) (f : InodeEntry → InodeEntry) : InodeMap :=
  m.map (fun kv => if kv.1 = ino then (kv.1, kv.2.map f) else kv)

mutual

/-- The body of the `readdir` loop for one entry: skip excluded names,
recurse into directories (the recursive `scan_directory` body — open,
device check, walk — is inlined here), and coalesce regular files by inode
number.  For a regular file, `hash_map_insert` runs first; if the bucket
already carries an entry, a path is prepended; otherwise `fstatat` runs:
on success the bucket's value is filled with a fresh entry, on failure the
path is reported, the loop continues with the next sibling — and the
bucket stays behind with a `none` (NULL) value, exactly as in the source. -/
def scanEntry (device : Nat) (excl : String → Bool) (dpath : String)
    (n : FsNode) (m : InodeMap) : InodeMap × List String :=
  match n with
  | .other _ => (m, [])
  | .file name ino statOk meta =>
    if isExcluded excl name then (m, [])
    else
      let fullpath := dpath ++ "/" ++ name
      match lookupBucket m ino with
      | some (some _) =>
        (updateIno m ino (fun e => { e with paths := fullpath :: e.paths }), [])
      | some none =>
        if statOk then
          (setBucket m ino
            (some ⟨ino, meta.size, meta.mtimeSec, meta.mtimeNsec, meta.content, [fullpath]⟩), [])
        else (m, [fullpath])
      | none =>
        if statOk then
          (m ++ [(ino, some ⟨ino, meta.size, meta.mtimeSec, meta.mtimeNsec, meta.content, [fullpath]⟩)], [])
        else (m ++ [(ino, none)], [fullpath])
  | .dir name openOk statOk dev entries =>
    if isExcluded excl name then (m, [])
    else
      let dpath' := dpath ++ "/" ++ name
      if openOk = false then (m, [dpath'])
      else if statOk = false ∨ dev ≠ device then (m, [dpath'])
      else scanEntries device excl dpath' entries m
termination_by sizeOf n

/-- The `readdir` loop over the remaining entries of a directory. -/
def scanEntries (device : Nat) (excl : String → Bool) (dpath : String)
    (ns : List FsNode) (m : InodeMap) : InodeMap × List String :=
  match ns with
  | [] => (m, [])
  | n :: rest =>
    let r1 := scanEntry device excl dpath n m
    let r2 := scanEntries device excl dpath rest r1.1
    (r2.1, r1.2 ++ r2.2)
termination_by sizeOf ns

end

/-- `scan_directory` applied to one root node (the same open/stat/device
checks as the inlined recursive case of `scanEntry`, but without the
exclusion test: roots are passed to `scan_directory` directly). -/
def scanDirectory (device : Nat) (excl : String → Bool) (dpath : String)
    (n : FsNode) (m : InodeMap) : InodeMap × List String :=
  match n with
  | .file _ _ _ _ => (m, [dpath])
  | .other _ => (m, [dpath])
  | .dir _ openOk statOk dev entries =>
    if openOk = false then (m, [dpath])
    else if statOk = false ∨ dev ≠ device then (m, [dpath])
    else scanEntries device excl dpath entries m

/-- The loop in `main` scanning every root (roots are passed to
`scan_directory` directly and are not matched against the excludes). -/
def scanRoots (device : Nat) (excl : String → Bool) :
    List (String × FsNode) → InodeMap → InodeMap × List String
  | [], m => (m, [])
  | (rp, n) :: rest, m =>
    let r1 := scanDirectory device excl rp n m
    let r2 := scanRoots device excl rest r1.1
    (r2.1, r1.2 ++ r2.2)

/-- `bucketize_by_size` for one inode: find or create the size bucket and
prepend the inode to its chain (the chain models the intrusive
`next_by_size` list; the bucket population `dummy` is the chain length). -/
def addToSizeBucket (bs : List (Nat × List InodeEntry)) (i : InodeEntry) :
    List (Nat × List InodeEntry) :=
  match bs with
  | [] => [(i.size, [i])]
  | (sz, is) :: rest =>
    if sz = i.size then (sz, i :: is) :: rest
    else (sz, is) :: addToSizeBucket rest i

/-- The walk of `inode_lookup` through `bucketize_by_size`. -/
def bucketizeBySize (l : List InodeEntry) : List (Nat × List InodeEntry) :=
  l.foldl addToSizeBucket []

/-- The ordering tested by `gather_tohash_sortcb`: `st_size` ascending. -/
def sizeLe (a b : InodeEntry) : Prop := a.size ≤ b.size

instance : DecidableRel sizeLe := fun a b => Nat.decLe a.size b.size

instance : IsTotal InodeEntry sizeLe := ⟨fun a b => Nat.le_total a.size b.size⟩

instance : IsTrans InodeEntry sizeLe := ⟨fun _ _ _ => Nat.le_trans⟩

/-- `gather_tohash`: collect every inode of every size bucket of population
at least 2 (in walk order), then sort the list by size. -/
def gatherTohash (bs : List (Nat × List InodeEntry)) : List InodeEntry :=
  List.insertionSort sizeLe ((bs.filter (fun b => 2 ≤ b.2.length)).flatMap (fun b => b.2))

/-- The fixed `chunk_size` of `hash_inode`: 32 MiB. -/
def chunkSize : Nat := 0x2000000

/-- The chunked `SHA256_Update` loop of `hash_inode`.  The context of the
streaming interface is modelled as the byte sequence absorbed so far;
`SHA256_Update(&ctx, data + offset, remaining)` appends
`(data.drop offset).take remaining`. -/
def hashLoop (data : List Nat) (size offset : Nat) (ctx : List Nat) : List Nat :=
  if h : offset < size then
    hashLoop data size (offset + chunkSize)
      (ctx ++ (data.drop offset).take (min chunkSize (size - offset)))
  else ctx
termination_by size - offset
decreasing_by simp [chunkSize]; omega

/-- The digest computed by the non-cached branch of `hash_inode`:
`SHA256_Final` applied to the absorbed context (for size 0 the file is not
mapped and the context stays empty). -/
def contentDigest (sha : List Nat → List Nat) (i : InodeEntry) : List Nat :=
  sha (if i.size = 0 then [] else hashLoop i.content i.size 0 [])

/-- `sizeof(struct timespec)` on the reference 64-bit platform. -/
def timespecSize : Int := 16

/-- Results of the two `fgetxattr` reads in `hash_inode` for one file:
`r0`/`r1` are the raw `ssize_t` return values (byte count, or -1 on
failure), `bytes` is what the read left in `inode->hash`, `sec`/`nsec`
what it left in the stack `mtime` stamp. -/
structure XattrSt where
  r0 : Int
  bytes : List Nat
  r1 : Int
  sec : Int
  nsec : Int

/-- The world as seen by `hash_inode`: which `open(path)` calls succeed,
which `mmap` calls succeed, and the xattr state per inode. -/
structure HashEnv where
  openOk : String → Bool
  mmapOk : String → Bool
  xattr : Nat → XattrSt

/-- The cache-hit condition computed by `hash_inode`:
`result0 == SHA256_DIGEST_LENGTH && (result1 == -1 || (result1 ==
sizeof(struct timespec) && sec and nsec match))`. -/
def cacheHit (r0 r1 sec nsec msec mnsec : Int) : Bool :=
  r0 == 32 && (r1 == -1 || (r1 == timespecSize && sec == msec && nsec == mnsec))

/-- What `hash_inode` did for one inode: skipped it (no path opened, or the
mapping failed), adopted the cached digest, or computed a fresh digest. -/
inductive HashOutcome where
  | dropped
  | cached (d : List Nat)
  | computed (d : List Nat)
deriving DecidableEq

/-- `hash_inode` for one inode, without the final map insertion: try the
paths in order until one opens (reporting each failure), test the xattr
cache, and on a miss map and hash the content.  The second component is
what was written to the error stream. -/
def hashInodeOutcome (xattrs : Bool) (sha : List Nat → List Nat) (env : HashEnv)
    (i : InodeEntry) : HashOutcome × List String :=
  let fails := i.paths.takeWhile (fun p => !env.openOk p)
  match i.paths.find? env.openOk with
  | none => (.dropped, fails)
  | some fpath =>
    let x := env.xattr i.ino
    let hit := xattrs && cacheHit x.r0 x.r1 x.sec x.nsec i.mtimeSec i.mtimeNsec
    if hit then (.cached x.bytes, fails)
    else if i.size ≠ 0 ∧ env.mmapOk fpath = false then (.dropped, fails ++ [fpath])
    else (.computed (contentDigest sha i), fails)

/-- Insertion into `hash_lookup` (keys compared by `hash_digest_equals`,
i.e. byte equality): find or create the digest bucket and prepend the inode
to its `next_by_hash` chain. -/
def addToHashBucket (hm : List (List Nat × List InodeEntry)) (d : List Nat)
    (i : InodeEntry) : List (List Nat × List InodeEntry) :=
  match hm with
  | [] => [(d, [i])]
  | (k, is) :: rest =>
    if k = d then (k, i :: is) :: rest
    else (k, is) :: addToHashBucket rest d i

/-- The hashing loop of `main`: hash every queued inode and register the
successfully hashed ones in the digest map. -/
def hashStage (xattrs : Bool) (sha : List Nat → List Nat) (env : HashEnv) :
    List InodeEntry → List (List Nat × List InodeEntry) →
    List (List Nat × List InodeEntry) × List String
  | [], hm => (hm, [])
  | i :: rest, hm =>
    let r := hashInodeOutcome xattrs sha env i
    let hm' := match r.1 with
      | .dropped => hm
      | .cached d => addToHashBucket hm d i
      | .computed d => addToHashBucket hm d i
    let r2 := hashStage xattrs sha env rest hm'
    (r2.1, r.2 ++ r2.2)

/-- `memcmp` on digest buffers, extended to arbitrary byte lists as the
lexicographic comparison (on the equal-length 32-byte keys actually
compared by `gather_tolink_sortcb` this is exactly `memcmp`). -/
def memcmpLex : List Nat → List Nat → Int
  | [], [] => 0
  | [], _ :: _ => -1
  | _ :: _, [] => 1
  | a :: as, b :: bs =>
    if a < b then -1 else if b < a then 1 else memcmpLex as bs

/-- The ordering tested by `gather_tolink_sortcb`: digest keys by `memcmp`. -/
def digestLe (x y : List Nat × List InodeEntry) : Prop := memcmpLex x.1 y.1 ≤ 0

instance : DecidableRel digestLe := fun x y => Int.decLe (memcmpLex x.1 y.1) 0

/-- `gather_tolink`: keep the digest buckets of population at least 2 (in
walk order) and sort them by digest bytes. -/
def gatherTolink (hm : List (List Nat × List InodeEntry)) :
    List (List Nat × List InodeEntry) :=
  List.insertionSort digestLe (hm.filter (fun b => 2 ≤ b.2.length))

/-- `relink_sortcb`: compare by mtime seconds, then mtime nanoseconds, then
inode number. -/
def relinkCmp (a b : InodeEntry) : Int :=
  if a.mtimeSec < b.mtimeSec then -1
  else if a.mtimeSec > b.mtimeSec then 1
  else if a.mtimeNsec < b.mtimeNsec then -1
  else if a.mtimeNsec > b.mtimeNsec then 1
  else if a.ino < b.ino then -1
  else if a.ino > b.ino then 1
  else 0

/-- The ordering induced by `relink_sortcb`. -/
def relinkLe (a b : InodeEntry) : Prop := relinkCmp a b ≤ 0

instance : DecidableRel relinkLe := fun a b => Int.decLe (relinkCmp a b) 0

/-- The spec's winner-selection key order, written out: (mtime seconds,
mtime nanoseconds, inode number), all ascending, lexicographically. -/
def specKeyLe (a b : InodeEntry) : Prop :=
  a.mtimeSec < b.mtimeSec ∨
    (a.mtimeSec = b.mtimeSec ∧
      (a.mtimeNsec < b.mtimeNsec ∨
        (a.mtimeNsec = b.mtimeNsec ∧ a.ino ≤ b.ino)))

/-- The `qsort(ordered, ...)` call of `relink`. -/
def relinkOrder (chain : List InodeEntry) : List InodeEntry :=
  List.insertionSort relinkLe chain

/-- The destination paths of a digest bucket: every path of every inode of
the sorted bucket except the first (the loops `for (i = 1; ...)` /
`for (dpath = ordered[i]->paths; ...)` in `relink`). -/
def relinkDestPaths (chain : List InodeEntry) : List String :=
  ((relinkOrder chain).drop 1).flatMap (fun e => e.paths)

/-- Lower-case hex digit, for the `%02x` digest rendering. -/
def hexDigitL (n : Nat) : Char :=
  if n < 10 then Char.ofNat (48 + n) else Char.ofNat (87 + n)

/-- `%02x` of one digest byte. -/
def hexByte (n : Nat) : String :=
  String.mk [hexDigitL ((n % 256) / 16), hexDigitL (n % 16)]

/-- The digest in hex, as printed in the `Duplicate %s:` header. -/
def hexDigest (d : List Nat) : String :=
  String.join (d.map hexByte)

/-- Upper-case hex digit, for the `%08X` temp-name nonce. -/
def hexDigitU (n : Nat) : Char :=
  if n < 10 then Char.ofNat (48 + n) else Char.ofNat (55 + n)

/-- `%08X` of the 32-bit random value drawn for a temp name. -/
def hex8 (r : Nat) : String :=
  String.mk (((List.range 8).map (fun k => hexDigitU ((r % 4294967296) / 16 ^ (7 - k) % 16))))

/-- The `strftime("%c", localtime(mtime))` rendering, abstracted (locale
and timezone rendering are out of scope): any deterministic function of the
mtime seconds serves; the model prints the raw seconds. -/
def fmtTime (sec : Int) : String := toString sec

/-- The duplicate-group report printed when verbose or interactive: the
digest header, then per inode a `#ino (size bytes) modified mtime` line
followed by its paths (non-tty formatting). -/
def groupReport (key : List Nat) (ordered : List InodeEntry) : List String :=
  ("Duplicate " ++ hexDigest key ++ ":") ::
    ordered.flatMap (fun e =>
      (" #" ++ toString e.ino ++ " (" ++ toString e.size ++ " bytes) modified " ++ fmtTime e.mtimeSec) ::
        e.paths.map (fun p => "  " ++ p))

/-- The prompt written before each `fgets` in the confirmation loop. -/
def promptLine : String := " Relink? [yes/no] "

/-- The interactive confirmation loop of `relink`.  `stdin` is the list of
available input lines (each including its newline); when it is exhausted
`fgets` fails and, because its return value is ignored, the comparison
re-reads the untouched buffer, whose indeterminate content is modelled by
`junk`.  Returns the decision (`some true` = relink, `some false` = skip,
`none` = the loop was still running when `fuel` ran out), the number of
prompts printed, and the unconsumed input. -/
def confirmRun (junk : String) : Nat → List String → Option Bool × Nat × List String
  | 0, lines => (none, 0, lines)
  | fuel + 1, lines =>
    let buf := match lines with
      | [] => junk
      | l :: _ => l
    let rest := match lines with
      | [] => ([] : List String)
      | _ :: ls => ls
    if buf = "y\n" ∨ buf = "yes\n" then (some true, 1, rest)
    else if buf = "n\n" ∨ buf = "no\n" then (some false, 1, rest)
    else
      let r := confirmRun junk fuel rest
      (r.1, r.2.1 + 1, r.2.2)

/-- `dir` in `relink`: the destination path truncated at its last `/`. -/
def dirName (p : String) : String :=
  String.mk (((p.toList.reverse.dropWhile (fun c => c ≠ '/')).drop 1).reverse)

/-- The temp-link name `PARENT/.tmp%08X~`. -/
def tmpName (dir : String) (r : Nat) : String :=
  dir ++ "/.tmp" ++ hex8 r ++ "~"

/-- Filesystem mutations issued by `relink`. -/
inductive FsOp where
  | link (src tmp : String)
  | rename (tmp dst : String)
  | unlink (p : String)
deriving DecidableEq

/-- The world as seen by the relink loop: whether a given temp name already
exists (`link` then fails with `EEXIST`), whether `link(src, tmp)` succeeds
otherwise, and whether `rename(tmp, dst)` succeeds. -/
structure RelinkEnv where
  tmpExists : String → Bool
  linkOk : String → String → Bool
  renameOk : String → String → Bool

/-- The per-destination-path body of `relink`: draw random nonces from
`rng` until the temp name is unclaimed, link the first source path that
accepts the link, and rename the temp onto the destination (unlinking the
temp if the rename fails).  Returns the mutating operations issued, the
error lines, whether the rename succeeded, and the unconsumed randomness. -/
def relinkPath (env : RelinkEnv) (src : InodeEntry) (dpath : String) :
    List Nat → List FsOp × List String × Bool × List Nat
  | [] => ([], [], false, [])
  | r :: rng =>
    let tmp := tmpName (dirName dpath) r
    if env.tmpExists tmp then relinkPath env src dpath rng
    else
      let fails := src.paths.takeWhile (fun s => !env.linkOk s tmp)
      match src.paths.find? (fun s => env.linkOk s tmp) with
      | none => ([], fails, false, rng)
      | some s =>
        if env.renameOk tmp dpath then ([.link s tmp, .rename tmp dpath], fails, true, rng)
        else ([.link s tmp, .unlink tmp], fails ++ [tmp], false, rng)

/-- The loop of `relink` over all destination paths of a bucket. -/
def relinkPaths (env : RelinkEnv) (src : InodeEntry) :
    List String → List Nat → List FsOp × List String × Nat × List Nat
  | [], rng => ([], [], 0, rng)
  | d :: ds, rng =>
    let r1 := relinkPath env src d rng
    let r2 := relinkPaths env src ds r1.2.2.2
    (r1.1 ++ r2.1, r1.2.1 ++ r2.2.1, (if r1.2.2.1 then 1 else 0) + r2.2.2.1, r2.2.2.2)

/-- Everything `relink` did for one digest bucket. -/
structure GroupRes where
  stdout : List String
  ops : List FsOp
  errors : List String
  count : Nat
  sizeSaved : Nat
  stdinRest : List String
  rngRest : List Nat

/-- `relink` for one digest bucket: sort the chain by `relink_sortcb`,
print the duplicate report when verbose or interactive, run the
confirmation loop when interactive, stop if declined or dry-run, and
otherwise relink every path of every inode but the first to the first. -/
def relinkGroup (cfg : Config) (env : RelinkEnv) (junk : String) (fuel : Nat)
    (bucket : List Nat × List InodeEntry) (stdin : List String) (rng : List Nat) : GroupRes :=
  let ordered := relinkOrder bucket.2
  let report := if cfg.verbose ∨ cfg.interactive then groupReport bucket.1 ordered else []
  let conf := if cfg.interactive then confirmRun junk fuel stdin else (some true, 0, stdin)
  let out := report ++ List.replicate conf.2.1 promptLine
  let base : GroupRes := ⟨out, [], [], 0, 0, conf.2.2, rng⟩
  match conf.1 with
  | some true =>
    if cfg.dryrun then base
    else
      match ordered with
      | [] => base
      | srcE :: dests =>
        let r := relinkPaths env srcE (dests.flatMap (fun e => e.paths)) rng
        { base with ops := r.1, errors := r.2.1, count := r.2.2.1,
                    sizeSaved := r.2.2.1 * srcE.size, rngRest := r.2.2.2 }
  | _ => base

/-- Accumulated result of the relink loop of `main`. -/
structure RelinkAcc where
  stdout : List String
  ops : List FsOp
  errors : List String
  count : Nat
  sizeSaved : Nat

/-- The loop of `main` over `tolink_list`, threading the input stream and
the randomness source through the groups. -/
def relinkAll (cfg : Config) (env : RelinkEnv) (junk : String) (fuel : Nat) :
    List (List Nat × List InodeEntry) → List String → List Nat → RelinkAcc
  | [], _, _ => ⟨[], [], [], 0, 0⟩
  | g :: gs, stdin, rng =>
    let r := relinkGroup cfg env junk fuel g stdin rng
    let rest := relinkAll cfg env junk fuel gs r.stdinRest r.rngRest
    ⟨r.stdout ++ rest.stdout, r.ops ++ rest.ops, r.errors ++ rest.errors,
      r.count + rest.count, r.sizeSaved + rest.sizeSaved⟩

/-- The `print_summary` line (non-tty formatting). -/
def summaryLine (count size : Nat) : String :=
  "Performed " ++ toString count ++ " relink" ++ (if 1 < count then "s" else "") ++
    ", saved " ++ toString size ++ " bytes."

/-- A filesystem state, for expressing that a run leaves it unchanged:
which inode each path refers to, each inode's link count and mtime. -/
structure World where
  pathIno : String → Option Nat
  linkCount : Nat → Nat
  mtimeSec : Nat → Int
  mtimeNsec : Nat → Int

/-- The effect of one relink operation on the filesystem. -/
def applyOp (w : World) : FsOp → World
  | .link src tmp =>
    { w with
      pathIno := fun p => if p = tmp then w.pathIno src else w.pathIno p,
      linkCount := fun i => if w.pathIno src = some i then w.linkCount i + 1 else w.linkCount i }
  | .rename tmp dst =>
    { w with
      pathIno := fun p => if p = dst then w.pathIno tmp else if p = tmp then none else w.pathIno p,
      linkCount := fun i =>
        if w.pathIno dst = some i ∧ w.pathIno dst ≠ w.pathIno tmp then w.linkCount i - 1
        else w.linkCount i }
  | .unlink p0 =>
    { w with
      pathIno := fun p => if p = p0 then none else w.pathIno p,
      linkCount := fun i => if w.pathIno p0 = some i then w.linkCount i - 1 else w.linkCount i }

/-- The cumulative effect of a run's relink operations. -/
def applyOps (w : World) (ops : List FsOp) : World :=
  ops.foldl applyOp w

/-- Observable outcome of one full run (progress lines, whose emission
depends on the wall clock, are out of scope and omitted).  `exitCode` is
`none` and `crashed` is `true` when the process dies of the NULL-value
dereference in `bucketize_by_size` instead of returning: a process killed
by SIGSEGV has no exit code. -/
structure RunResult where
  errors : List String
  groupOut : List String
  summaryOut : List String
  ops : List FsOp
  count : Nat
  sizeSaved : Nat
  exitCode : Option Nat
  crashed : Bool

/-- The pipeline of `main` after a successful `parse_cmdline`: scan all
roots, then walk `inode_lookup` through `bucketize_by_size`.  That callback
dereferences `inode_bucket->value` unconditionally, so if the scan left any
bucket with a NULL value (a fresh inode whose `fstatat` failed and that no
later entry re-stat'd), the process crashes there — with only the scan's
error lines emitted.  Otherwise: bucketize by size, gather and hash the
candidates, gather the digest buckets, relink them, print the summary,
return 0. -/
def runPipeline (cfg : Config) (sha : List Nat → List Nat) (henv : HashEnv)
    (renv : RelinkEnv) (junk : String) (fuel : Nat)
    (roots : List (String × FsNode)) (stdin : List String) (rng : List Nat) : RunResult :=
  let scanned := scanRoots cfg.device cfg.excl roots []
  if scanned.1.any (fun kv => kv.2.isNone) then
    { errors := scanned.2, groupOut := [], summaryOut := [], ops := [],
      count := 0, sizeSaved := 0, exitCode := none, crashed := true }
  else
    let inodes := scanned.1.filterMap (fun kv => kv.2)
    let th := gatherTohash (bucketizeBySize inodes)
    let hashed := hashStage cfg.xattrs sha henv th []
    let tl := gatherTolink hashed.1
    let r := relinkAll cfg renv junk fuel tl stdin rng
    { errors := scanned.2 ++ hashed.2 ++ r.errors,
      groupOut := r.stdout,
      summaryOut := if cfg.verbose ∧ 0 < r.count then [summaryLine r.count r.sizeSaved] else [],
      ops := r.ops,
      count := r.count,
      sizeSaved := r.sizeSaved,
      exitCode := some 0,
      crashed := false }

/-- `main`: parse the command line (exit 1 on failure), then run the
pipeline on the stored roots (the filesystem tree reached from a root
string is given by `fs`) and exit 0 — unless the pipeline crashes. -/
def mainRun (stat : String → Option Nat) (match0 : String → String → Bool)
    (fs : String → FsNode) (sha : List Nat → List Nat) (henv : HashEnv)
    (renv : RelinkEnv) (junk : String) (fuel : Nat)
    (opts : List CliOpt) (roots : List String) (stdin : List String) (rng : List Nat) : RunResult :=
  match parseCmdline stat match0 opts roots with
  | none => ⟨[], [], [], [], 0, 0, some 1, false⟩
  | some (cfg, dirs) =>
    runPipeline cfg sha henv renv junk fuel (dirs.map (fun d => (d, fs d))) stdin rng

/-! ### Properties of the trailing-slash stripping (claim C10) -/

lemma stripTrailing_getLast? : ∀ l : List Char, (stripTrailing l).getLast? ≠ some '/' := by
  intro l
  induction l with
  | nil => simp [stripTrailing]
  | cons c cs ih =>
    cases h : stripTrailing cs with
    | nil =>
      by_cases hc : c = '/'
      · simp [stripTrailing, h, hc]
      · simp [stripTrailing, h, hc]
    | cons r rs =>
      rw [h] at ih
      simp only [stripTrailing, h]
      rw [List.getLast?_cons_cons]
      exact ih

lemma stripTrailing_all_slash : ∀ l : List Char, (∀ c ∈ l, c = '/') → stripTrailing l = [] := by
  intro l
  induction l with
  | nil => intro _; rfl
  | cons c cs ih =>
    intro h
    have hc : c = '/' := h c (by simp)
    have hcs : stripTrailing cs = [] := ih (fun x hx => h x (by simp [hx]))
    simp [stripTrailing, hcs, hc]

lemma stripTrailing_decomp : ∀ l : List Char, ∃ n, l = stripTrailing l ++ List.replicate n '/' := by
  intro l
  induction l with
  | nil => exact ⟨0, rfl⟩
  | cons c cs ih =>
    obtain ⟨n, hn⟩ := ih
    cases h : stripTrailing cs with
    | nil =>
      by_cases hc : c = '/'
      · refine ⟨n + 1, ?_⟩
        simp only [stripTrailing, h, hc, if_pos]
        rw [h] at hn
        simp only [List.nil_append] at hn
        simp [List.replicate_succ, hn]
      · refine ⟨n, ?_⟩
        simp only [stripTrailing, h, hc, if_neg, not_false_iff]
        rw [h] at hn
        simp only [List.nil_append] at hn
        simp [hn]
    | cons r rs =>
      refine ⟨n, ?_⟩
      simp only [stripTrailing, h]
      rw [h] at hn
      simp [hn]

/-- C10: every root argument has all its trailing slashes stripped before it
is stored: no stored root ends in a slash, a root consisting only of slashes
(such as "/") becomes the empty string, only trailing slashes are removed
(the stored root is a prefix of the argument, the removed suffix being all
slashes), the stored root list is exactly the argument list mapped through
the stripping, and the string `stat` is invoked on for the first root is the
stripped first root (`scanRoots`/`scanDirectory` likewise receive the stored
strings in `mainRun`). -/
theorem claim10_trailing_slashes :
    (∀ s : String, (stripRoot s).toList.getLast? ≠ some '/') ∧
    (∀ s : String, (∀ c ∈ s.toList, c = '/') → stripRoot s = "") ∧
    (∀ s : String, ∃ n, s.toList = (stripRoot s).toList ++ List.replicate n '/') ∧
    stripRoot "/" = "" ∧
    (∀ stat match0 opts roots cfg dirs,
      parseCmdline stat match0 opts roots = some (cfg, dirs) → dirs = roots.map stripRoot) ∧
    (∀ (stat : String → Option Nat) match0 opts r0 rs fl,
      parseOpts {} opts = some fl →
      (parseCmdline stat match0 opts (r0 :: rs) = none ↔ stat (stripRoot r0) = none)) := by
  refine ⟨?_, ?_, ?_, ?_, ?_, ?_⟩
  · intro s; exact stripTrailing_getLast? s.toList
  · intro s h
    have h2 := stripTrailing_all_slash s.toList h
    unfold stripRoot
    rw [h2]
  · intro s
    obtain ⟨n, hn⟩ := stripTrailing_decomp s.toList
    refine ⟨n, ?_⟩
    unfold stripRoot
    exact hn
  · decide
  · intro stat match0 opts roots cfg dirs h
    cases hp : parseOpts {} opts with
    | none => simp [parseCmdline, hp] at h
    | some fl =>
      cases hr : roots.map stripRoot with
      | nil =>
        simp only [parseCmdline, hp, hr, Option.some.injEq, Prod.mk.injEq] at h
        exact h.2.symm
      | cons d0 ds =>
        cases hs : stat d0 with
        | none => simp [parseCmdline, hp, hr, hs] at h
        | some dev =>
          simp only [parseCmdline, hp, hr, hs, Option.some.injEq, Prod.mk.injEq] at h
          exact h.2.symm
  · intro stat match0 opts r0 rs fl hfl
    simp only [parseCmdline, hfl, List.map_cons]
    cases hs : stat (stripRoot r0) with
    | none => simp
    | some dev => simp

/-! ### Exit codes (claim C7) -/

lemma parseOpts_eq_none_iff : ∀ (opts : List CliOpt) (acc : Flags),
    parseOpts acc opts = none ↔ CliOpt.helpErr ∈ opts := by
  intro opts
  induction opts with
  | nil => intro acc; simp [parseOpts]
  | cons o rest ih =>
    intro acc
    cases o <;> simp [parseOpts, ih]

/-! ### Equations of the scanner loop -/

lemma scanEntries_nil : ∀ (device : Nat) (excl : String → Bool) (dpath : String) (m : InodeMap),
    scanEntries device excl dpath [] m = (m, []) := by
  intro device excl dpath m
  simp [scanEntries]

lemma scanEntries_cons : ∀ (device : Nat) (excl : String → Bool) (dpath : String)
    (n : FsNode) (rest : List FsNode) (m : InodeMap),
    scanEntries device excl dpath (n :: rest) m =
      ((scanEntries device excl dpath rest (scanEntry device excl dpath n m).1).1,
       (scanEntry device excl dpath n m).2 ++
         (scanEntries device excl dpath rest (scanEntry device excl dpath n m).1).2) := by
  intro device excl dpath n rest m
  rw [scanEntries]

lemma scanEntries_append : ∀ (device : Nat) (excl : String → Bool) (dpath : String)
    (xs ys : List FsNode) (m : InodeMap),
    scanEntries device excl dpath (xs ++ ys) m =
      ((scanEntries device excl dpath ys (scanEntries device excl dpath xs m).1).1,
       (scanEntries device excl dpath xs m).2 ++
         (scanEntries device excl dpath ys (scanEntries device excl dpath xs m).1).2) := by
  intro device excl dpath xs
  induction xs with
  | nil => intro ys m; simp [scanEntries_nil]
  | cons n rest ih =>
    intro ys m
    rw [List.cons_append, scanEntries_cons, ih ys (scanEntry device excl dpath n m).1,
      scanEntries_cons]
    simp [List.append_assoc]

lemma scanEntry_failfile : ∀ (device : Nat) (excl : String → Bool) (dpath name : String)
    (ino : Nat) (meta : FileMeta) (m : InodeMap),
    isExcluded excl name = false → lookupBucket m ino = none →
    scanEntry device excl dpath (FsNode.file name ino false meta) m =
      (m ++ [(ino, none)], [dpath ++ "/" ++ name]) := by
  intro device excl dpath name ino meta m hex hlook
  rw [scanEntry]
  simp [hex, hlook]

lemma scanEntry_failfile_stale : ∀ (device : Nat) (excl : String → Bool) (dpath name : String)
    (ino : Nat) (meta : FileMeta) (m : InodeMap),
    isExcluded excl name = false → lookupBucket m ino = some none →
    scanEntry device excl dpath (FsNode.file name ino false meta) m =
      (m, [dpath ++ "/" ++ name]) := by
  intro device excl dpath name ino meta m hex hlook
  rw [scanEntry]
  simp [hex, hlook]

lemma scanEntry_failopen : ∀ (device : Nat) (excl : String → Bool) (dpath name : String)
    (statOk : Bool) (dev : Nat) (entries : List FsNode) (m : InodeMap),
    isExcluded excl name = false →
    scanEntry device excl dpath (FsNode.dir name false statOk dev entries) m =
      (m, [dpath ++ "/" ++ name]) := by
  intro device excl dpath name statOk dev entries m hex
  rw [scanEntry]
  simp [hex]

lemma scanEntry_crossdev : ∀ (device : Nat) (excl : String → Bool) (dpath name : String)
    (statOk : Bool) (dev : Nat) (entries : List FsNode) (m : InodeMap),
    isExcluded excl name = false → (statOk = false ∨ dev ≠ device) →
    scanEntry device excl dpath (FsNode.dir name true statOk dev entries) m =
      (m, [dpath ++ "/" ++ name]) := by
  intro device excl dpath name statOk dev entries m hex hbad
  rw [scanEntry]
  simp [hex, hbad]

lemma runPipeline_exit : ∀ (cfg : Config) (sha : List Nat → List Nat) (henv : HashEnv)
    (renv : RelinkEnv) (junk : String) (fuel : Nat) (roots : List (String × FsNode))
    (stdin : List String) (rng : List Nat),
    (runPipeline cfg sha henv renv junk fuel roots stdin rng).crashed = false →
    (runPipeline cfg sha henv renv junk fuel roots stdin rng).exitCode = some 0 := by
  intro cfg sha henv renv junk fuel roots stdin rng
  simp only [runPipeline]
  by_cases h : (scanRoots cfg.device cfg.excl roots []).1.any (fun kv => kv.2.isNone) = true
  · simp [h]
  · simp [h]

/-- C7 (what actually holds, and the crash refuting the claim): the process
exits 1 exactly when option parsing fails (`-h`, `-?`, unknown option) or
the first stored root cannot be stat'd, and 0 on every run that completes;
but "per-file I/O errors never change the exit code" is false: for a tree
containing a fresh regular file whose `fstatat` fails, the stale NULL-valued
`inode_lookup` bucket left by `scan_directory` is dereferenced by
`bucketize_by_size` and the process dies without any exit code at all. -/
theorem claim7_exit_and_crash :
    (∀ stat match0 fs sha henv renv junk fuel opts roots stdin rng,
      (mainRun stat match0 fs sha henv renv junk fuel opts roots stdin rng).crashed = false →
      (mainRun stat match0 fs sha henv renv junk fuel opts roots stdin rng).exitCode =
        if CliOpt.helpErr ∈ opts ∨ (roots ≠ [] ∧ stat (stripRoot (roots.headD "")) = none)
        then some 1 else some 0) ∧
    (∀ (cfg : Config) (sha : List Nat → List Nat) (henv : HashEnv) (renv : RelinkEnv)
        (junk : String) (fuel : Nat) (stdin : List String) (rng : List Nat)
        (rp rn name : String) (ino : Nat) (meta : FileMeta),
      isExcluded cfg.excl name = false →
      (runPipeline cfg sha henv renv junk fuel
          [(rp, FsNode.dir rn true true cfg.device [FsNode.file name ino false meta])]
          stdin rng).exitCode = none ∧
      (runPipeline cfg sha henv renv junk fuel
          [(rp, FsNode.dir rn true true cfg.device [FsNode.file name ino false meta])]
          stdin rng).crashed = true) := by
  constructor
  · intro stat match0 fs sha henv renv junk fuel opts roots stdin rng
    unfold mainRun parseCmdline
    cases hp : parseOpts {} opts with
    | none =>
      have hmem : CliOpt.helpErr ∈ opts := (parseOpts_eq_none_iff opts {}).mp hp
      simp [hmem]
    | some fl =>
      have hmem : CliOpt.helpErr ∉ opts := fun hm =>
        by rw [(parseOpts_eq_none_iff opts {}).mpr hm] at hp; exact Option.noConfusion hp
      cases roots with
      | nil =>
        simp only [List.map_nil]
        intro _
        simp [hmem, runPipeline, scanRoots]
      | cons r0 rs =>
        simp only [List.map_cons]
        cases hs : stat (stripRoot r0) with
        | none => simp [hmem, hs]
        | some dev =>
          simp only [hmem, hs]
          intro hcr
          rw [runPipeline_exit _ _ _ _ _ _ _ _ _ hcr]
          simp [hmem, hs]
  · intro cfg sha henv renv junk fuel stdin rng rp rn name ino meta hex
    have h1 : scanEntry cfg.device cfg.excl rp (FsNode.file name ino false meta) [] =
        ([(ino, none)], [rp ++ "/" ++ name]) := by
      rw [scanEntry_failfile cfg.device cfg.excl rp name ino meta [] hex rfl]
      simp
    have hroot : scanRoots cfg.device cfg.excl
        [(rp, FsNode.dir rn true true cfg.device [FsNode.file name ino false meta])] [] =
        ([(ino, none)], [rp ++ "/" ++ name]) := by
      simp [scanRoots, scanDirectory, scanEntries_cons, scanEntries_nil, h1]
    simp [runPipeline, hroot]

/-! ### The interactive confirmation loop (claim C8) -/

/-- C8 (behaviour at the failing input): the confirmation loop accepts
"y"/"yes", rejects "n"/"no", and re-prompts on any other line; but at
end-of-input `fgets` fails, its ignored return value leaves the buffer
holding indeterminate data (modelled by the junk line "x", which matches no
accepted reply), and the loop never terminates with a decision — in
particular it never skips the group, contradicting the claim that
end-of-input is treated as "no". -/
theorem claim8_confirm_eof :
    (∀ fuel stdin, (confirmRun "x" (fuel + 1) ("y\n" :: stdin)).1 = some true) ∧
    (∀ fuel stdin, (confirmRun "x" (fuel + 1) ("yes\n" :: stdin)).1 = some true) ∧
    (∀ fuel stdin, (confirmRun "x" (fuel + 1) ("n\n" :: stdin)).1 = some false) ∧
    (∀ fuel stdin, (confirmRun "x" (fuel + 1) ("no\n" :: stdin)).1 = some false) ∧
    (∀ fuel, (confirmRun "x" fuel []).1 = none) := by
  refine ⟨?_, ?_, ?_, ?_, ?_⟩
  · intro fuel stdin; simp [confirmRun]
  · intro fuel stdin; simp [confirmRun]
  · intro fuel stdin; simp [confirmRun]
  · intro fuel stdin; simp [confirmRun]
  · intro fuel
    induction fuel with
    | zero => rfl
    | succ n ih => simpa [confirmRun] using ih

/-! ### The winner-selection order of `relink_sortcb` (claim C1) -/

lemma relinkLe_iff : ∀ a b : InodeEntry, relinkLe a b ↔ specKeyLe a b := by
  intro a b
  unfold relinkLe relinkCmp specKeyLe
  split_ifs <;> omega

lemma relinkLe_refl : ∀ a : InodeEntry, relinkLe a a := by
  intro a
  rw [relinkLe_iff]
  unfold specKeyLe
  omega

lemma relinkLe_total : ∀ a b : InodeEntry, relinkLe a b ∨ relinkLe b a := by
  intro a b
  rw [relinkLe_iff, relinkLe_iff]
  unfold specKeyLe
  omega

lemma relinkLe_trans : ∀ a b c : InodeEntry, relinkLe a b → relinkLe b c → relinkLe a c := by
  intro a b c h1 h2
  rw [relinkLe_iff] at h1 h2 ⊢
  unfold specKeyLe at h1 h2 ⊢
  omega

instance : IsTotal InodeEntry relinkLe := ⟨relinkLe_total⟩

instance : IsTrans InodeEntry relinkLe := ⟨relinkLe_trans⟩

/-- C1: for every digest bucket of cardinality at least 2, the relinker's
`qsort` by `relink_sortcb` arranges the bucket's inodes ascending by
(mtime seconds, mtime nanoseconds, inode number); the first element of the
sorted sequence is the canonical source (minimal under that key among the
whole bucket), and the destination paths processed by the relink loop are
exactly the paths of all the remaining inodes. -/
theorem claim1_winner_selection : ∀ chain : List InodeEntry, 2 ≤ chain.length →
    ∃ srcE dests, relinkOrder chain = srcE :: dests ∧
      List.Sorted specKeyLe (relinkOrder chain) ∧
      (relinkOrder chain).Perm chain ∧
      (∀ x ∈ chain, specKeyLe srcE x) ∧
      relinkDestPaths chain = dests.flatMap (fun e => e.paths) := by
  intro chain hlen
  have hperm : (relinkOrder chain).Perm chain := List.perm_insertionSort relinkLe chain
  have hsorted : List.Sorted relinkLe (relinkOrder chain) :=
    List.sorted_insertionSort relinkLe chain
  have hlen2 : 2 ≤ (relinkOrder chain).length := by rw [hperm.length_eq]; exact hlen
  obtain ⟨srcE, dests, hcons⟩ : ∃ srcE dests, relinkOrder chain = srcE :: dests := by
    cases h : relinkOrder chain with
    | nil => rw [h] at hlen2; simp at hlen2
    | cons a l => exact ⟨a, l, rfl⟩
  refine ⟨srcE, dests, hcons, hsorted.imp (fun h => (relinkLe_iff _ _).mp h), hperm, ?_, ?_⟩
  · intro x hx
    have hx' : x ∈ relinkOrder chain := hperm.mem_iff.mpr hx
    rw [hcons] at hx' hsorted
    rcases List.mem_cons.mp hx' with h | h
    · rw [h]; exact (relinkLe_iff _ _).mp (relinkLe_refl srcE)
    · exact (relinkLe_iff _ _).mp ((List.sorted_cons.mp hsorted).1 x h)
  · unfold relinkDestPaths
    rw [hcons]
    rfl

/-- A concrete inode record used by the witnesses (4-byte file, mtime 100). -/
def sampleInoA : InodeEntry := ⟨1, 4, 100, 0, [100, 97, 116, 97], ["/r/a"]⟩

/-- A concrete inode record used by the witnesses (4-byte file, mtime 200). -/
def sampleInoB : InodeEntry := ⟨2, 4, 200, 0, [100, 97, 116, 97], ["/r/b"]⟩

theorem claim1_witness :
    ∃ srcE dests, relinkOrder [sampleInoB, sampleInoA] = srcE :: dests ∧
      List.Sorted specKeyLe (relinkOrder [sampleInoB, sampleInoA]) ∧
      (relinkOrder [sampleInoB, sampleInoA]).Perm [sampleInoB, sampleInoA] ∧
      (∀ x ∈ [sampleInoB, sampleInoA], specKeyLe srcE x) ∧
      relinkDestPaths [sampleInoB, sampleInoA] = dests.flatMap (fun e => e.paths) :=
  claim1_winner_selection [sampleInoB, sampleInoA] (by decide)

/-! ### The digest-bucket order of `gather_tolink_sortcb` (claim C6) -/

lemma memcmpLex_swap : ∀ a b : List Nat, memcmpLex b a = -memcmpLex a b := by
  intro a
  induction a with
  | nil => intro b; cases b <;> simp [memcmpLex]
  | cons x xs ih =>
    intro b
    cases b with
    | nil => simp [memcmpLex]
    | cons y ys =>
      unfold memcmpLex
      split_ifs <;> first | omega | (rw [ih ys])

lemma memcmpLex_total : ∀ a b : List Nat, memcmpLex a b ≤ 0 ∨ memcmpLex b a ≤ 0 := by
  intro a b
  rw [memcmpLex_swap a b]
  omega

lemma memcmpLex_trans : ∀ a b c : List Nat,
    memcmpLex a b ≤ 0 → memcmpLex b c ≤ 0 → memcmpLex a c ≤ 0 := by
  intro a
  induction a with
  | nil => intro b c h1 h2; cases c <;> simp [memcmpLex]
  | cons x xs ih =>
    intro b c h1 h2
    cases b with
    | nil => simp [memcmpLex] at h1
    | cons y ys =>
      cases c with
      | nil => simp [memcmpLex] at h2
      | cons z zs =>
        unfold memcmpLex at h1 h2 ⊢
        split_ifs at h1 h2 ⊢ <;> first | omega | exact ih ys zs h1 h2

instance : IsTotal (List Nat × List InodeEntry) digestLe := ⟨fun a b => memcmpLex_total a.1 b.1⟩

instance : IsTrans (List Nat × List InodeEntry) digestLe :=
  ⟨fun a b c => memcmpLex_trans a.1 b.1 c.1⟩

lemma lex_nil_right : ∀ l : List Nat, ¬ List.Lex (fun x y : Nat => x < y) l [] := by
  intro l h
  cases h

lemma memcmpLex_le_iff : ∀ a b : List Nat,
    memcmpLex a b ≤ 0 ↔ (a = b ∨ List.Lex (fun x y : Nat => x < y) a b) := by
  intro a
  induction a with
  | nil =>
    intro b
    cases b with
    | nil => simp [memcmpLex]
    | cons y ys => simp [memcmpLex, List.Lex.nil]
  | cons x xs ih =>
    intro b
    cases b with
    | nil =>
      simp only [memcmpLex]
      constructor
      · intro h; omega
      · rintro (h | h)
        · exact absurd h (by simp)
        · exact absurd h (lex_nil_right (x :: xs))
    | cons y ys =>
      unfold memcmpLex
      split_ifs with h1 h2
      · constructor
        · intro _; exact Or.inr (List.Lex.rel h1)
        · intro _; omega
      · constructor
        · intro h; omega
        · rintro (h | h)
          · injection h with hx hxs; omega
          · cases h with
            | rel hr => omega
            | cons hc => omega
      · have hxy : x = y := by omega
        rw [ih ys]
        subst hxy
        constructor
        · rintro (h | h)
          · rw [h]; exact Or.inl rfl
          · exact Or.inr (List.Lex.cons h)
        · rintro (h | h)
          · injection h with hx hxs; exact Or.inl hxs
          · cases h with
            | rel hr => omega
            | cons hc => exact Or.inr hc

/-- C6: the sequence handed to the relinker is exactly the digest buckets of
cardinality at least 2 (in particular the singletons are dropped), ordered
lexicographically by the raw digest bytes (equal digests first — the keys
of the digest map are in fact pairwise distinct). -/
theorem claim6_tolink_buckets : ∀ hm : List (List Nat × List InodeEntry),
    (gatherTolink hm).Perm (hm.filter (fun b => 2 ≤ b.2.length)) ∧
    (∀ b, b ∈ gatherTolink hm ↔ b ∈ hm ∧ 2 ≤ b.2.length) ∧
    List.Sorted (fun x y : List Nat × List InodeEntry =>
      x.1 = y.1 ∨ List.Lex (fun u v : Nat => u < v) x.1 y.1) (gatherTolink hm) := by
  intro hm
  have hperm : (gatherTolink hm).Perm (hm.filter (fun b => 2 ≤ b.2.length)) :=
    List.perm_insertionSort digestLe _
  refine ⟨hperm, ?_, ?_⟩
  · intro b
    rw [hperm.mem_iff, List.mem_filter]
    simp
  · have hsorted : List.Sorted digestLe (gatherTolink hm) :=
      List.sorted_insertionSort digestLe _
    exact hsorted.imp (fun h => (memcmpLex_le_iff _ _).mp h)

/-! ### The hash queue of `gather_tohash` (claim C5) -/

/-- The chain stored in the size map under a given size key ([] if the key
is absent). -/
def chainOf (bs : List (Nat × List InodeEntry)) (s : Nat) : List InodeEntry :=
  match bs.find? (fun b => b.1 = s) with
  | some b => b.2
  | none => []

lemma chainOf_add : ∀ (bs : List (Nat × List InodeEntry)) (i : InodeEntry) (s : Nat),
    chainOf (addToSizeBucket bs i) s = if i.size = s then i :: chainOf bs s else chainOf bs s := by
  intro bs i
  induction bs with
  | nil =>
    intro s
    by_cases h : i.size = s <;> simp [addToSizeBucket, chainOf, List.find?_cons, h]
  | cons hd tl ih =>
    intro s
    obtain ⟨sz, is⟩ := hd
    by_cases h1 : sz = i.size
    · subst h1
      by_cases h2 : i.size = s
      · subst h2
        simp [addToSizeBucket, chainOf, List.find?_cons]
      · simp [addToSizeBucket, chainOf, List.find?_cons, h2]
    · by_cases h2 : sz = s
      · subst h2
        have h3 : ¬ i.size = sz := fun h => h1 h.symm
        simp [addToSizeBucket, chainOf, List.find?_cons, h1, h3]
      · have hstep : chainOf ((sz, is) :: addToSizeBucket tl i) s = chainOf (addToSizeBucket tl i) s := by
          simp [chainOf, List.find?_cons, h2]
        have hstep2 : chainOf ((sz, is) :: tl) s = chainOf tl s := by
          simp [chainOf, List.find?_cons, h2]
        simp only [addToSizeBucket]
        rw [if_neg h1, hstep, hstep2]
        exact ih s

lemma chainOf_foldl : ∀ (l : List InodeEntry) (bs : List (Nat × List InodeEntry)) (s : Nat),
    chainOf (l.foldl addToSizeBucket bs) s =
      (l.filter (fun y => y.size = s)).reverse ++ chainOf bs s := by
  intro l
  induction l with
  | nil => intro bs s; simp
  | cons i rest ih =>
    intro bs s
    simp only [List.foldl_cons]
    rw [ih (addToSizeBucket bs i) s, chainOf_add]
    by_cases h : i.size = s
    · simp [h, List.filter_cons]
    · simp [h, List.filter_cons]

lemma bucketize_chain : ∀ (l : List InodeEntry) (s : Nat),
    chainOf (bucketizeBySize l) s = (l.filter (fun y => y.size = s)).reverse := by
  intro l s
  unfold bucketizeBySize
  rw [chainOf_foldl]
  simp [chainOf]

lemma add_keys : ∀ (bs : List (Nat × List InodeEntry)) (i : InodeEntry),
    (addToSizeBucket bs i).map Prod.fst =
      if i.size ∈ bs.map Prod.fst then bs.map Prod.fst else bs.map Prod.fst ++ [i.size] := by
  intro bs i
  induction bs with
  | nil => simp [addToSizeBucket]
  | cons hd tl ih =>
    obtain ⟨sz, is⟩ := hd
    by_cases h : sz = i.size
    · simp [addToSizeBucket, h]
    · have hne : ¬ i.size = sz := fun hx => h hx.symm
      by_cases hmem : i.size ∈ tl.map Prod.fst
      · simp [addToSizeBucket, h, ih, hmem, hne]
      · simp [addToSizeBucket, h, ih, hmem, hne]

lemma foldl_keys_nodup : ∀ (l : List InodeEntry) (bs : List (Nat × List InodeEntry)),
    (bs.map Prod.fst).Nodup → ((l.foldl addToSizeBucket bs).map Prod.fst).Nodup := by
  intro l
  induction l with
  | nil => intro bs h; simpa using h
  | cons i rest ih =>
    intro bs h
    simp only [List.foldl_cons]
    apply ih
    rw [add_keys]
    by_cases hmem : i.size ∈ bs.map Prod.fst
    · simpa [hmem] using h
    · simp only [hmem, if_neg, not_false_iff]
      simp [List.nodup_append, h, hmem]

lemma bucketize_keys_nodup : ∀ l : List InodeEntry,
    ((bucketizeBySize l).map Prod.fst).Nodup := by
  intro l
  exact foldl_keys_nodup l [] (by simp)

lemma add_elem_size : ∀ (bs : List (Nat × List InodeEntry)) (i : InodeEntry),
    (∀ b ∈ bs, ∀ x ∈ b.2, x.size = b.1) →
    ∀ b ∈ addToSizeBucket bs i, ∀ x ∈ b.2, x.size = b.1 := by
  intro bs i
  induction bs with
  | nil =>
    intro _ b hb x hx
    simp [addToSizeBucket] at hb
    rw [hb] at hx ⊢
    simp at hx
    simp [hx]
  | cons hd tl ih =>
    intro hinv b hb x hx
    obtain ⟨sz, is⟩ := hd
    by_cases h : sz = i.size
    · subst h
      simp only [addToSizeBucket, if_pos] at hb
      rcases List.mem_cons.mp hb with hbh | hbt
      · rw [hbh] at hx ⊢
        rcases List.mem_cons.mp hx with hxi | hxm
        · simp [hxi]
        · exact hinv (i.size, is) (by simp) x hxm
      · exact hinv b (by simp [hbt]) x hx
    · simp only [addToSizeBucket, h, if_neg, not_false_iff] at hb
      rcases List.mem_cons.mp hb with hbh | hbt
      · exact hinv b (by simp [hbh]) x hx
      · exact ih (fun c hc => hinv c (by simp [hc])) b hbt x hx

lemma bucketize_elem_size : ∀ (l : List InodeEntry),
    ∀ b ∈ bucketizeBySize l, ∀ x ∈ b.2, x.size = b.1 := by
  intro l
  have main : ∀ (l2 : List InodeEntry) (bs : List (Nat × List InodeEntry)),
      (∀ b ∈ bs, ∀ x ∈ b.2, x.size = b.1) →
      ∀ b ∈ l2.foldl addToSizeBucket bs, ∀ x ∈ b.2, x.size = b.1 := by
    intro l2
    induction l2 with
    | nil => intro bs h; simpa using h
    | cons i rest ih =>
      intro bs h
      simp only [List.foldl_cons]
      exact ih _ (add_elem_size bs i h)
  exact main l [] (by simp)

lemma find_self_of_keys_nodup : ∀ (bs : List (Nat × List InodeEntry)),
    (bs.map Prod.fst).Nodup → ∀ b ∈ bs, bs.find? (fun c => c.1 = b.1) = some b := by
  intro bs
  induction bs with
  | nil => intro _ b hb; simp at hb
  | cons a tl ih =>
    intro hnd b hb
    rcases List.mem_cons.mp hb with hbh | hbt
    · rw [hbh]
      simp [List.find?_cons]
    · have hne : a.1 ≠ b.1 := by
        intro he
        have h1 : a.1 ∉ tl.map Prod.fst := by
          simp only [List.map_cons, List.nodup_cons] at hnd
          exact hnd.1
        have h2 : b.1 ∈ tl.map Prod.fst := List.mem_map.mpr ⟨b, hbt, rfl⟩
        rw [he] at h1
        exact h1 h2
      rw [List.find?_cons]
      simp only [hne, decide_eq_true_eq, if_neg, not_false_iff]
      exact ih (by simp only [List.map_cons, List.nodup_cons] at hnd; exact hnd.2) b hbt

lemma bucket_content : ∀ (l : List InodeEntry) (b : Nat × List InodeEntry),
    b ∈ bucketizeBySize l → b.2 = (l.filter (fun y => y.size = b.1)).reverse := by
  intro l b hb
  have hf := find_self_of_keys_nodup (bucketizeBySize l) (bucketize_keys_nodup l) b hb
  have hc := bucketize_chain l b.1
  unfold chainOf at hc
  rw [hf] at hc
  exact hc

/-- C5: the hasher's input sequence contains exactly the inodes of size
classes of cardinality at least 2 (an inode is queued iff at least two
scanned inodes share its size), each exactly once, and the sequence is
sorted by file size ascending (the model is a function, so ties are broken
deterministically). -/
theorem claim5_tohash : ∀ l : List InodeEntry, l.Nodup →
    List.Sorted sizeLe (gatherTohash (bucketizeBySize l)) ∧
    (∀ x, x ∈ gatherTohash (bucketizeBySize l) ↔
      x ∈ l ∧ 2 ≤ (l.filter (fun y => y.size = x.size)).length) ∧
    (∀ x ∈ gatherTohash (bucketizeBySize l), (gatherTohash (bucketizeBySize l)).count x = 1) := by
  intro l hl
  have hperm : (gatherTohash (bucketizeBySize l)).Perm
      (((bucketizeBySize l).filter (fun b => 2 ≤ b.2.length)).flatMap (fun b => b.2)) :=
    List.perm_insertionSort sizeLe _
  have hmemF : ∀ x, x ∈ ((bucketizeBySize l).filter (fun b => 2 ≤ b.2.length)).flatMap (fun b => b.2) ↔
      x ∈ l ∧ 2 ≤ (l.filter (fun y => y.size = x.size)).length := by
    intro x
    constructor
    · intro hx
      rw [List.mem_flatMap] at hx
      obtain ⟨b, hbf, hxb⟩ := hx
      rw [List.mem_filter] at hbf
      obtain ⟨hb, hlen⟩ := hbf
      have hsz : x.size = b.1 := bucketize_elem_size l b hb x hxb
      have hcont := bucket_content l b hb
      rw [hcont] at hxb hlen
      simp only [List.mem_reverse] at hxb
      refine ⟨(List.mem_filter.mp hxb).1, ?_⟩
      rw [hsz]
      simpa using hlen
    · rintro ⟨hxl, hlen⟩
      have hchain := bucketize_chain l x.size
      have hxf : x ∈ l.filter (fun y => y.size = x.size) := List.mem_filter.mpr ⟨hxl, by simp⟩
      cases hfind : (bucketizeBySize l).find? (fun b => b.1 = x.size) with
      | none =>
        unfold chainOf at hchain
        rw [hfind] at hchain
        have hxr : x ∈ (l.filter (fun y => y.size = x.size)).reverse := by simpa using hxf
        rw [← hchain] at hxr
        simp at hxr
      | some b =>
        have hb : b ∈ bucketizeBySize l := List.mem_of_find?_eq_some hfind
        have hb1 : b.1 = x.size := by simpa using List.find?_some hfind
        have hcont : b.2 = (l.filter (fun y => y.size = x.size)).reverse := by
          rw [bucket_content l b hb, hb1]
        have hxb : x ∈ b.2 := by rw [hcont]; simpa using hxf
        have hblen : 2 ≤ b.2.length := by rw [hcont]; simpa using hlen
        rw [List.mem_flatMap]
        exact ⟨b, List.mem_filter.mpr ⟨hb, by simpa using hblen⟩, hxb⟩
  have hnodupF : (((bucketizeBySize l).filter (fun b => 2 ≤ b.2.length)).flatMap (fun b => b.2)).Nodup := by
    rw [List.nodup_flatMap]
    constructor
    · intro b hbf
      have hb := (List.mem_filter.mp hbf).1
      rw [bucket_content l b hb]
      exact List.nodup_reverse.mpr (hl.filter _)
    · have hkeys : List.Pairwise (fun a b : Nat × List InodeEntry => a.1 ≠ b.1) (bucketizeBySize l) :=
        List.pairwise_map.mp (bucketize_keys_nodup l)
      have hkeysF := hkeys.filter (fun b => 2 ≤ b.2.length)
      refine List.Pairwise.imp_of_mem ?_ hkeysF
      intro a b ha hb hne
      intro x hxa hxb
      have ha' := (List.mem_filter.mp ha).1
      have hb' := (List.mem_filter.mp hb).1
      have h1 : x.size = a.1 := bucketize_elem_size l a ha' x hxa
      have h2 : x.size = b.1 := bucketize_elem_size l b hb' x hxb
      exact hne (h1 ▸ h2 ▸ rfl)
  have hnodup : (gatherTohash (bucketizeBySize l)).Nodup := hperm.nodup_iff.mpr hnodupF
  refine ⟨List.sorted_insertionSort sizeLe _, ?_, ?_⟩
  · intro x
    rw [hperm.mem_iff]
    exact hmemF x
  · intro x hx
    exact List.count_eq_one_of_mem hnodup hx

theorem claim5_witness :
    List.Sorted sizeLe (gatherTohash (bucketizeBySize [sampleInoA, sampleInoB])) ∧
    (∀ x, x ∈ gatherTohash (bucketizeBySize [sampleInoA, sampleInoB]) ↔
      x ∈ [sampleInoA, sampleInoB] ∧
        2 ≤ ([sampleInoA, sampleInoB].filter (fun y => y.size = x.size)).length) ∧
    (∀ x ∈ gatherTohash (bucketizeBySize [sampleInoA, sampleInoB]),
      (gatherTohash (bucketizeBySize [sampleInoA, sampleInoB])).count x = 1) :=
  claim5_tohash [sampleInoA, sampleInoB] (by decide)

/-! ### Chunked content hashing (claim C3) -/

lemma hashLoop_absorb : ∀ (n : Nat) (data : List Nat) (size offset : Nat) (ctx : List Nat),
    size - offset ≤ n → data.length = size →
    hashLoop data size offset ctx = ctx ++ data.drop offset := by
  intro n
  induction n with
  | zero =>
    intro data size offset ctx hn hl
    rw [hashLoop]
    have hlt : ¬ offset < size := by omega
    rw [dif_neg hlt]
    have hd : data.drop offset = [] := List.drop_eq_nil_of_le (by omega)
    rw [hd, List.append_nil]
  | succ k ih =>
    intro data size offset ctx hn hl
    rw [hashLoop]
    by_cases hlt : offset < size
    · rw [dif_pos hlt]
      have hc : chunkSize = 33554432 := rfl
      rw [ih data size (offset + chunkSize) _ (by omega) hl]
      rw [List.append_assoc]
      congr 1
      have hdd : List.drop (offset + chunkSize) data = List.drop chunkSize (List.drop offset data) := by
        rw [List.drop_drop]
      rw [hdd]
      by_cases hle : size - offset ≤ chunkSize
      · have hmin : min chunkSize (size - offset) = size - offset := Nat.min_eq_right hle
        rw [hmin]
        have hlen : (List.drop offset data).length = size - offset := by
          rw [List.length_drop, hl]
        have htake : List.take (size - offset) (List.drop offset data) = List.drop offset data := by
          rw [← hlen]
          exact List.take_length _
        have hdrop : List.drop chunkSize (List.drop offset data) = [] :=
          List.drop_eq_nil_of_le (by rw [hlen]; omega)
        rw [htake, hdrop, List.append_nil]
      · have hmin : min chunkSize (size - offset) = chunkSize := Nat.min_eq_left (by omega)
        rw [hmin]
        exact List.take_append_drop chunkSize (List.drop offset data)
    · rw [dif_neg hlt]
      have hd : data.drop offset = [] := List.drop_eq_nil_of_le (by omega)
      rw [hd, List.append_nil]

lemma contentDigest_eq : ∀ (sha : List Nat → List Nat) (i : InodeEntry),
    i.content.length = i.size → contentDigest sha i = sha i.content := by
  intro sha i hl
  unfold contentDigest
  by_cases h : i.size = 0
  · rw [if_pos h]
    have hc : i.content = [] := List.eq_nil_of_length_eq_zero (by rw [hl, h])
    rw [hc]
  · rw [if_neg h]
    rw [hashLoop_absorb i.size i.content i.size 0 [] (by omega) hl]
    simp

/-- C3: on a cache miss the digest computed for an inode is the digest
primitive applied to the file's entire byte content: for size 0 nothing is
mapped and the context stays empty (the digest is that of the empty byte
sequence), and for non-zero size the 32 MiB-chunked `SHA256_Update` loop
absorbs exactly the whole content, so the digest equals a single-shot hash
of it; whenever `hash_inode` stores a freshly computed digest it is the
digest of the whole content. -/
theorem claim3_chunked_digest : ∀ (sha : List Nat → List Nat) (i : InodeEntry),
    i.content.length = i.size →
    contentDigest sha i = sha i.content ∧
    (i.size = 0 → contentDigest sha i = sha []) ∧
    (∀ xattrs env d, (hashInodeOutcome xattrs sha env i).1 = HashOutcome.computed d →
      d = sha i.content) := by
  intro sha i hl
  have hmain := contentDigest_eq sha i hl
  refine ⟨hmain, ?_, ?_⟩
  · intro h0
    rw [hmain]
    have hc : i.content = [] := List.eq_nil_of_length_eq_zero (by rw [hl, h0])
    rw [hc]
  · intro xattrs env d hd
    simp only [hashInodeOutcome] at hd
    split at hd
    · simp at hd
    · split at hd
      · simp at hd
      · split at hd
        · simp at hd
        · simp only at hd
          injection hd with h
          rw [← h]
          exact hmain

theorem claim3_witness :
    sampleInoA.content.length = sampleInoA.size ∧
    (contentDigest (fun l => l) sampleInoA = (fun l : List Nat => l) sampleInoA.content ∧
      (sampleInoA.size = 0 → contentDigest (fun l => l) sampleInoA = (fun l : List Nat => l) []) ∧
      (∀ xattrs env d,
        (hashInodeOutcome xattrs (fun l => l) env sampleInoA).1 = HashOutcome.computed d →
        d = (fun l : List Nat => l) sampleInoA.content)) :=
  ⟨by decide, claim3_chunked_digest (fun l => l) sampleInoA (by decide)⟩

/-! ### The xattr cache-hit condition (claims C4) -/

/-- The cache-hit condition as the spec words it: the digest attribute read
returned exactly 32 bytes, and either the mtime attribute read failed or it
returned exactly the stored stamp size with seconds and nanoseconds both
equal to the inode's current mtime. -/
def cacheHitSpec (x : XattrSt) (i : InodeEntry) : Prop :=
  x.r0 = 32 ∧ (x.r1 = -1 ∨ (x.r1 = timespecSize ∧ x.sec = i.mtimeSec ∧ x.nsec = i.mtimeNsec))

lemma cacheHit_iff : ∀ (x : XattrSt) (i : InodeEntry),
    cacheHit x.r0 x.r1 x.sec x.nsec i.mtimeSec i.mtimeNsec = true ↔ cacheHitSpec x i := by
  intro x i
  simp [cacheHit, cacheHitSpec, and_assoc]

/-- A hashing world where every open succeeds, every mmap fails, and both
xattr reads fail. -/
def hashFailEnv : HashEnv := ⟨fun _ => true, fun _ => false, fun _ => ⟨-1, [], -1, 0, 0⟩⟩

/-- A 1-byte file used as the C4 counterexample. -/
def sampleInoC : InodeEntry := ⟨3, 1, 0, 0, [7], ["/r/c"]⟩

/-- C4 (counterexample to the claim as stated): with xattr caching enabled,
a failed cache probe (`r0 = -1`, so no 32-byte digest attribute) on a
non-empty file whose `mmap` fails leads `hash_inode` to drop the inode: the
cached digest is not adopted, but the content is NOT hashed afresh either,
refuting "in every other case the content is hashed afresh". -/
theorem claim4_counterexample :
    cacheHit (-1) (-1) 0 0 0 0 = false ∧
    (hashInodeOutcome true (fun l => l) hashFailEnv sampleInoC).1 = HashOutcome.dropped ∧
    (hashInodeOutcome true (fun l => l) hashFailEnv sampleInoC).1 ≠
      HashOutcome.computed ((fun l : List Nat => l) sampleInoC.content) := by
  refine ⟨by decide, by decide, by decide⟩

/-- C4 (amended): when xattr caching is enabled and a path of the inode has
been opened, the hasher adopts the cached digest (skipping content hashing)
if and only if the digest attribute read returned exactly 32 bytes and
either the mtime attribute read failed or it returned exactly the stored
stamp size with seconds and nanoseconds equal to the inode's mtime; in
every other case in which the content can be mapped (or is empty) it is
hashed afresh (when the mapping fails the inode is dropped unhashed). -/
theorem claim4_cache_condition : ∀ (sha : List Nat → List Nat) (env : HashEnv)
    (i : InodeEntry) (fpath : String),
    i.paths.find? env.openOk = some fpath →
    (((hashInodeOutcome true sha env i).1 = HashOutcome.cached (env.xattr i.ino).bytes) ↔
      cacheHitSpec (env.xattr i.ino) i) ∧
    (¬ cacheHitSpec (env.xattr i.ino) i → (i.size = 0 ∨ env.mmapOk fpath = true) →
      (hashInodeOutcome true sha env i).1 = HashOutcome.computed (contentDigest sha i)) := by
  intro sha env i fpath hfind
  simp only [hashInodeOutcome, hfind, Bool.true_and]
  by_cases hhit : cacheHitSpec (env.xattr i.ino) i
  · have hb : cacheHit (env.xattr i.ino).r0 (env.xattr i.ino).r1 (env.xattr i.ino).sec
        (env.xattr i.ino).nsec i.mtimeSec i.mtimeNsec = true :=
      (cacheHit_iff (env.xattr i.ino) i).mpr hhit
    simp [hb, hhit]
  · have hb : cacheHit (env.xattr i.ino).r0 (env.xattr i.ino).r1 (env.xattr i.ino).sec
        (env.xattr i.ino).nsec i.mtimeSec i.mtimeNsec = false := by
      rw [← Bool.not_eq_true]
      exact fun h => hhit ((cacheHit_iff (env.xattr i.ino) i).mp h)
    simp only [hb, Bool.false_eq_true, if_false]
    constructor
    · constructor
      · intro h
        split at h <;> simp at h
      · intro h
        exact absurd h hhit
    · intro _ hmap
      have hcond : ¬ (i.size ≠ 0 ∧ env.mmapOk fpath = false) := by
        rcases hmap with h | h
        · intro hc; exact hc.1 h
        · intro hc; rw [h] at hc; exact Bool.noConfusion hc.2
      rw [if_neg hcond]

/-- A hashing world where every open and mmap succeeds and both xattr reads
fail (a cache miss). -/
def hashMissEnv : HashEnv := ⟨fun _ => true, fun _ => true, fun _ => ⟨-1, [], -1, 0, 0⟩⟩

theorem claim4_witness :
    (((hashInodeOutcome true (fun l => l) hashMissEnv sampleInoA).1 =
        HashOutcome.cached ((hashMissEnv.xattr sampleInoA.ino).bytes)) ↔
      cacheHitSpec (hashMissEnv.xattr sampleInoA.ino) sampleInoA) ∧
    (¬ cacheHitSpec (hashMissEnv.xattr sampleInoA.ino) sampleInoA →
      (sampleInoA.size = 0 ∨ hashMissEnv.mmapOk "/r/a" = true) →
      (hashInodeOutcome true (fun l => l) hashMissEnv sampleInoA).1 =
        HashOutcome.computed (contentDigest (fun l => l) sampleInoA)) :=
  claim4_cache_condition (fun l => l) hashMissEnv sampleInoA "/r/a" (by decide)

/-! ### Per-entry scan failures and the stale-bucket crash (claims C2, C7) -/

/-- A plain configuration: no flags set, device 0, nothing excluded. -/
def cfg0 : Config := ⟨false, false, false, false, false, 0, fun _ => false⟩

/-- Stat results of a small regular file, used by the witnesses. -/
def meta0 : FileMeta := ⟨4, 100, 0, [1, 2, 3, 4]⟩

/-- A relink world where no temp name pre-exists and every link and rename
succeeds. -/
def renv0 : RelinkEnv := ⟨fun _ => false, fun _ _ => true, fun _ _ => true⟩

/-- C2 (the claim states the spec's explicit failure policy; the code
violates it): failed directory opens and cross-device directories are
reported and skipped with the map untouched, and after a failed `fstatat`
the `readdir` loop does report the path and continue with the next sibling
— but because `hash_map_insert` runs *before* `fstatat`, the failed fresh
inode leaves a NULL-valued bucket behind, and the run does NOT complete
through the remaining pipeline stages: `bucketize_by_size` dereferences
that NULL value and the process crashes in size grouping, with only the
scan error lines emitted, no group output, no operations and no exit
status. -/
theorem claim2_stat_failure_bug :
    (∀ (device : Nat) (excl : String → Bool) (dpath name : String) (statOk : Bool)
        (dev : Nat) (entries : List FsNode) (m : InodeMap),
      isExcluded excl name = false →
      scanEntry device excl dpath (FsNode.dir name false statOk dev entries) m =
        (m, [dpath ++ "/" ++ name])) ∧
    (∀ (device : Nat) (excl : String → Bool) (dpath name : String) (statOk : Bool)
        (dev : Nat) (entries : List FsNode) (m : InodeMap),
      isExcluded excl name = false → (statOk = false ∨ dev ≠ device) →
      scanEntry device excl dpath (FsNode.dir name true statOk dev entries) m =
        (m, [dpath ++ "/" ++ name])) ∧
    (∀ (device : Nat) (excl : String → Bool) (dpath name : String) (ino : Nat)
        (meta : FileMeta) (m : InodeMap),
      isExcluded excl name = false → lookupBucket m ino = none →
      scanEntry device excl dpath (FsNode.file name ino false meta) m =
        (m ++ [(ino, none)], [dpath ++ "/" ++ name])) ∧
    (∀ (cfg : Config) (sha : List Nat → List Nat) (henv : HashEnv) (renv : RelinkEnv)
        (junk : String) (fuel : Nat) (stdin : List String) (rng : List Nat)
        (rp rn name : String) (ino : Nat) (meta : FileMeta),
      isExcluded cfg.excl name = false →
      (runPipeline cfg sha henv renv junk fuel
          [(rp, FsNode.dir rn true true cfg.device [FsNode.file name ino false meta])]
          stdin rng).crashed = true ∧
      (runPipeline cfg sha henv renv junk fuel
          [(rp, FsNode.dir rn true true cfg.device [FsNode.file name ino false meta])]
          stdin rng).exitCode = none ∧
      (runPipeline cfg sha henv renv junk fuel
          [(rp, FsNode.dir rn true true cfg.device [FsNode.file name ino false meta])]
          stdin rng).errors = [rp ++ "/" ++ name] ∧
      (runPipeline cfg sha henv renv junk fuel
          [(rp, FsNode.dir rn true true cfg.device [FsNode.file name ino false meta])]
          stdin rng).groupOut = [] ∧
      (runPipeline cfg sha henv renv junk fuel
          [(rp, FsNode.dir rn true true cfg.device [FsNode.file name ino false meta])]
          stdin rng).ops = []) := by
  refine ⟨scanEntry_failopen, scanEntry_crossdev, scanEntry_failfile, ?_⟩
  intro cfg sha henv renv junk fuel stdin rng rp rn name ino meta hex
  have h1 : scanEntry cfg.device cfg.excl rp (FsNode.file name ino false meta) [] =
      ([(ino, none)], [rp ++ "/" ++ name]) := by
    rw [scanEntry_failfile cfg.device cfg.excl rp name ino meta [] hex rfl]
    simp
  have hroot : scanRoots cfg.device cfg.excl
      [(rp, FsNode.dir rn true true cfg.device [FsNode.file name ino false meta])] [] =
      ([(ino, none)], [rp ++ "/" ++ name]) := by
    simp [scanRoots, scanDirectory, scanEntries_cons, scanEntries_nil, h1]
  simp [runPipeline, hroot]

theorem claim2_witness :
    scanEntry 0 (fun _ => false) "r" (FsNode.dir "d" false true 0 []) [] = ([], ["r/d"]) ∧
    scanEntry 0 (fun _ => false) "r" (FsNode.dir "d" true true 1 []) [] = ([], ["r/d"]) ∧
    scanEntry 0 (fun _ => false) "r" (FsNode.file "f" 5 false meta0) [] =
      ([] ++ [(5, none)], ["r/f"]) ∧
    ((runPipeline cfg0 (fun l => l) hashMissEnv renv0 "x" 1
        [("r", FsNode.dir "n" true true cfg0.device [FsNode.file "f" 5 false meta0])]
        [] []).crashed = true ∧
      (runPipeline cfg0 (fun l => l) hashMissEnv renv0 "x" 1
        [("r", FsNode.dir "n" true true cfg0.device [FsNode.file "f" 5 false meta0])]
        [] []).exitCode = none ∧
      (runPipeline cfg0 (fun l => l) hashMissEnv renv0 "x" 1
        [("r", FsNode.dir "n" true true cfg0.device [FsNode.file "f" 5 false meta0])]
        [] []).errors = ["r" ++ "/" ++ "f"] ∧
      (runPipeline cfg0 (fun l => l) hashMissEnv renv0 "x" 1
        [("r", FsNode.dir "n" true true cfg0.device [FsNode.file "f" 5 false meta0])]
        [] []).groupOut = [] ∧
      (runPipeline cfg0 (fun l => l) hashMissEnv renv0 "x" 1
        [("r", FsNode.dir "n" true true cfg0.device [FsNode.file "f" 5 false meta0])]
        [] []).ops = []) := by
  refine ⟨?_, ?_, ?_, ?_⟩
  · exact claim2_stat_failure_bug.1 0 (fun _ => false) "r" "d" true 0 [] [] (by decide)
  · exact claim2_stat_failure_bug.2.1 0 (fun _ => false) "r" "d" true 1 [] []
      (by decide) (Or.inr (by decide))
  · exact claim2_stat_failure_bug.2.2.1 0 (fun _ => false) "r" "f" 5 meta0 [] (by decide) rfl
  · exact claim2_stat_failure_bug.2.2.2 cfg0 (fun l => l) hashMissEnv renv0 "x" 1 [] []
      "r" "n" "f" 5 meta0 (by decide)

theorem claim7_witness :
    (mainRun (fun _ => some 7) (fun _ _ => false) (fun _ => FsNode.other "o") (fun l => l)
        hashMissEnv renv0 "x" 1 [] [] [] []).exitCode =
      (if CliOpt.helpErr ∈ ([] : List CliOpt) ∨ (([] : List String) ≠ [] ∧
          (fun _ : String => (some 7 : Option Nat)) (stripRoot (List.headD [] "")) = none)
        then some 1 else some 0) ∧
    ((runPipeline cfg0 (fun l => l) hashMissEnv renv0 "x" 1
        [("r", FsNode.dir "n" true true cfg0.device [FsNode.file "f" 5 false meta0])]
        [] []).exitCode = none ∧
      (runPipeline cfg0 (fun l => l) hashMissEnv renv0 "x" 1
        [("r", FsNode.dir "n" true true cfg0.device [FsNode.file "f" 5 false meta0])]
        [] []).crashed = true) := by
  refine ⟨?_, ?_⟩
  · exact claim7_exit_and_crash.1 (fun _ => some 7) (fun _ _ => false)
      (fun _ => FsNode.other "o") (fun l => l) hashMissEnv renv0 "x" 1 [] [] [] [] (by decide)
  · exact claim7_exit_and_crash.2 cfg0 (fun l => l) hashMissEnv renv0 "x" 1 [] []
      "r" "n" "f" 5 meta0 (by decide)

/-! ### Dry-run performs no filesystem mutation (claim C9) -/

lemma relinkGroup_dryrun : ∀ (cfg : Config) (env : RelinkEnv) (junk : String) (fuel : Nat)
    (g : List Nat × List InodeEntry) (stdin : List String) (rng₁ rng₂ : List Nat),
    (relinkGroup { cfg with dryrun := true } env junk fuel g stdin rng₁).stdout =
      (relinkGroup { cfg with dryrun := false } env junk fuel g stdin rng₂).stdout ∧
    (relinkGroup { cfg with dryrun := true } env junk fuel g stdin rng₁).stdinRest =
      (relinkGroup { cfg with dryrun := false } env junk fuel g stdin rng₂).stdinRest ∧
    (relinkGroup { cfg with dryrun := true } env junk fuel g stdin rng₁).ops = [] ∧
    (relinkGroup { cfg with dryrun := true } env junk fuel g stdin rng₁).count = 0 ∧
    (relinkGroup { cfg with dryrun := true } env junk fuel g stdin rng₁).sizeSaved = 0 := by
  intro cfg env junk fuel g stdin rng₁ rng₂
  simp only [relinkGroup]
  cases hdec : (if cfg.interactive then confirmRun junk fuel stdin else (some true, 0, stdin)).1 with
  | none => simp
  | some b =>
    cases b with
    | false => simp
    | true =>
      cases hord : relinkOrder g.2 with
      | nil => simp [hord]
      | cons srcE dests => simp [hord]

lemma relinkAll_dryrun : ∀ (cfg : Config) (env : RelinkEnv) (junk : String) (fuel : Nat)
    (gs : List (List Nat × List InodeEntry)) (stdin : List String) (rng₁ rng₂ : List Nat),
    (relinkAll { cfg with dryrun := true } env junk fuel gs stdin rng₁).stdout =
      (relinkAll { cfg with dryrun := false } env junk fuel gs stdin rng₂).stdout ∧
    (relinkAll { cfg with dryrun := true } env junk fuel gs stdin rng₁).ops = [] ∧
    (relinkAll { cfg with dryrun := true } env junk fuel gs stdin rng₁).count = 0 ∧
    (relinkAll { cfg with dryrun := true } env junk fuel gs stdin rng₁).sizeSaved = 0 := by
  intro cfg env junk fuel gs
  induction gs with
  | nil => intro stdin rng₁ rng₂; simp [relinkAll]
  | cons g rest ih =>
    intro stdin rng₁ rng₂
    obtain ⟨hout, hin, hops, hcnt, hsz⟩ := relinkGroup_dryrun cfg env junk fuel g stdin rng₁ rng₂
    obtain ⟨ihout, ihops, ihcnt, ihsz⟩ := ih
      (relinkGroup { cfg with dryrun := true } env junk fuel g stdin rng₁).stdinRest
      (relinkGroup { cfg with dryrun := true } env junk fuel g stdin rng₁).rngRest
      (relinkGroup { cfg with dryrun := false } env junk fuel g stdin rng₂).rngRest
    simp only [relinkAll]
    refine ⟨?_, ?_, ?_, ?_⟩
    · rw [← hin, hout, ihout]
    · simp [hops, ihops]
    · simp [hcnt, ihcnt]
    · simp [hsz, ihsz]

/-- C9: with the dry-run flag set, discovery and reporting are exactly those
of the corresponding real run (same duplicate-group output and interactive
prompting, whatever the randomness of either run), but no link, rename or
unlink is issued, the relink and reclaimed-bytes counters stay 0, and
applying the run's operations to any filesystem state leaves it unchanged
(paths, link counts and mtimes included). -/
theorem claim9_dryrun : ∀ (cfg : Config) (sha : List Nat → List Nat) (henv : HashEnv)
    (renv : RelinkEnv) (junk : String) (fuel : Nat) (roots : List (String × FsNode))
    (stdin : List String) (rng₁ rng₂ : List Nat) (w : World),
    (runPipeline { cfg with dryrun := true } sha henv renv junk fuel roots stdin rng₁).groupOut =
      (runPipeline { cfg with dryrun := false } sha henv renv junk fuel roots stdin rng₂).groupOut ∧
    (runPipeline { cfg with dryrun := true } sha henv renv junk fuel roots stdin rng₁).ops = [] ∧
    (runPipeline { cfg with dryrun := true } sha henv renv junk fuel roots stdin rng₁).count = 0 ∧
    (runPipeline { cfg with dryrun := true } sha henv renv junk fuel roots stdin rng₁).sizeSaved = 0 ∧
    applyOps w (runPipeline { cfg with dryrun := true } sha henv renv junk fuel roots stdin rng₁).ops = w := by
  intro cfg sha henv renv junk fuel roots stdin rng₁ rng₂ w
  simp only [runPipeline]
  by_cases hcrash :
      (scanRoots cfg.device cfg.excl roots []).1.any (fun kv => kv.2.isNone) = true
  · simp [hcrash, applyOps]
  · obtain ⟨hout, hops, hcnt, hsz⟩ := relinkAll_dryrun cfg renv junk fuel
      (gatherTolink (hashStage cfg.xattrs sha henv
        (gatherTohash (bucketizeBySize
          ((scanRoots cfg.device cfg.excl roots []).1.filterMap (fun kv => kv.2)))) []).1)
      stdin rng₁ rng₂
    simp only [hcrash, if_neg, Bool.false_eq_true, not_false_iff]
    exact ⟨hout, hops, hcnt, hsz, by rw [hops]; rfl⟩

theorem claim10_witness :
    (stripRoot "abc/").toList.getLast? ≠ some '/' ∧
    ((∀ c ∈ "///".toList, c = '/') ∧ stripRoot "///" = "") ∧
    (∃ n, "a//".toList = (stripRoot "a//").toList ++ List.replicate n '/') ∧
    ([] : List String) = List.map stripRoot [] ∧
    (parseCmdline (fun _ => none) (fun _ _ => false) [] ["/"] = none ↔
      (fun _ : String => (none : Option Nat)) (stripRoot "/") = none) := by
  refine ⟨claim10_trailing_slashes.1 "abc/", ⟨by decide, ?_⟩, claim10_trailing_slashes.2.2.1 "a//", ?_, ?_⟩
  · exact claim10_trailing_slashes.2.1 "///" (by decide)
  · exact claim10_trailing_slashes.2.2.2.2.1 (fun _ => some 7) (fun _ _ => false) [] []
      (Config.mk false false false false false 0 (fun _ => false)) [] rfl
  · exact claim10_trailing_slashes.2.2.2.2.2 (fun _ => none) (fun _ _ => false) [] "/" [] {} rfl
